import Mathlib

/-!
Verification of the pica-video frame/transcription pipeline
(`src/pica.video.09.py`, legibility classifier from
`src/_antigos/pica.video.03.py`).

The Python functions are shallowly embedded as executable Lean
definitions: floating point seconds become exact rationals, the
filesystem of an output directory becomes a `Finset String` of file
names, the progress queues become lists of messages, and Python
exceptions become `Except String`.
-/

namespace PicaVideo

/-! ## Decimal formatting (Python `f"{n:0Nd}"` and `str(int)`) -/

/-- One decimal digit as the character Python prints for it. -/
def digitChar (d : Nat) : Char :=
  ['0', '1', '2', '3', '4', '5', '6', '7', '8', '9'].getD d '*'

/-- Numeric value of a decimal digit character. -/
def charVal (c : Char) : Nat := c.toNat - 48

/-- Little-endian decimal digits of `n`, driven by explicit fuel so the
definition is structural (the fuel `n` itself always suffices). -/
def natDigitsAux : Nat → Nat → List Nat
  | 0, _ => []
  | fuel + 1, n => if n = 0 then [] else n % 10 :: natDigitsAux fuel (n / 10)

/-- Little-endian decimal digits of `n` (empty for `0`). -/
def natDigits (n : Nat) : List Nat := natDigitsAux n n

/-- Decimal string of a natural number, as Python's `str`. -/
def natToStr (n : Nat) : String :=
  if n = 0 then "0" else ⟨((natDigits n).reverse.map digitChar)⟩

/-- Left-pad a string with `'0'` up to width `w`. -/
def leftPad (w : Nat) (s : String) : String :=
  ⟨List.replicate (w - s.length) '0' ++ s.data⟩

/-- Python's `f"{n:0wd}"`: zero-padded decimal of an integer, the sign
(if any) printed before the padding zeros as Python does. -/
def fmt0d (w : Nat) (n : ℤ) : String :=
  if n < 0 then "-" ++ leftPad (w - 1) (natToStr (-n).toNat)
  else leftPad w (natToStr n.toNat)

/-- Big-endian decimal value of a character list (tolerates leading
zeros), used to decode the strings `fmt0d` produces. -/
def strVal (l : List Char) : Nat := l.foldl (fun a c => 10 * a + charVal c) 0

/-- Little-endian decimal value of a digit list. -/
def fromDigits : List Nat → Nat
  | [] => 0
  | d :: ds => d + 10 * fromDigits ds

/-! ## Python numeric semantics over exact rationals

Python floats are modelled as exact rationals.  `int()` truncates
toward zero, `//` is floor division, `%` has the sign of the divisor
(`a % b = a - b * (a // b)`). -/

/-- Python `int(q)`: truncation toward zero. -/
def pyInt (q : ℚ) : ℤ := if q < 0 then -⌊-q⌋ else ⌊q⌋

/-- Python `a // b` on floats: floor division (result still a float). -/
def pyFloorDiv (a b : ℚ) : ℚ := (⌊a / b⌋ : ℚ)

/-- Python `a % b` on floats: `a - b * (a // b)`. -/
def pyMod (a b : ℚ) : ℚ := a - b * (⌊a / b⌋ : ℚ)

/-- The `(minutos, segundos, milissegundos)` tuple `analisar_dados_log`
builds from one captured `pts_time` value (`pica.video.09.py` 81-83):
`int(t // 60)`, `int(t % 60)`, `int((t - int(t)) * 1000)`. -/
def tupla_pts (t : ℚ) : ℤ × ℤ × ℤ :=
  (pyInt (pyFloorDiv t 60), pyInt (pyMod t 60),
   pyInt ((t - (pyInt t : ℚ)) * 1000))

/-! ## Frame renamer (`renomear_frames`, `pica.video.09.py` 91-104)

All file names live in the one output directory `pasta_saida`, so the
directory is modelled as the `Finset String` of the file names in it
and the common `os.path.join` dirname component is left implicit. -/

/-- `f"frame_{k:06d}.png"`, the decoder's sequentially numbered frame
file (the loop uses `k = i + 1` for extraction index `i`). -/
def origName (k : Nat) : String := "frame_" ++ fmt0d 6 (k : ℤ) ++ ".png"

/-- `f"frame_{nome_base}_{minutos:02d}-{segundos:02d}-{milissegundos:03d}.png"`:
the timestamp-embedding target name of a frame. -/
def destName (base : String) (t : ℤ × ℤ × ℤ) : String :=
  "frame_" ++ base ++ "_" ++ fmt0d 2 t.1 ++ "-" ++ fmt0d 2 t.2.1 ++ "-"
    ++ fmt0d 3 t.2.2 ++ ".png"

/-- The renaming loop from index `i` on: `os.rename` moves the expected
sequential name to the timestamp name (overwriting any file already
there, as `os.rename` does); a missing expected file is only logged and
the index is skipped. -/
def renomearAux (base : String) :
    List (ℤ × ℤ × ℤ) → Nat → Finset String → Finset String
  | [], _, fs => fs
  | t :: rest, i, fs =>
    renomearAux base rest (i + 1)
      (if origName (i + 1) ∈ fs then
        insert (destName base t) (fs.erase (origName (i + 1)))
      else fs)

/-- `renomear_frames(tempos_frames, pasta_saida, nome_base)` acting on
the directory contents `fs`. -/
def renomear_frames (tempos_frames : List (ℤ × ℤ × ℤ)) (base : String)
    (fs : Finset String) : Finset String :=
  renomearAux base tempos_frames 0 fs

/-- Validity of a timestamp tuple as the reconstructor produces it
(cf. `claim_C10`): nonnegative minutes, seconds below 60, milliseconds
below 1000. -/
def tuplaValida (t : ℤ × ℤ × ℤ) : Prop :=
  0 ≤ t.1 ∧ 0 ≤ t.2.1 ∧ t.2.1 < 60 ∧ 0 ≤ t.2.2 ∧ t.2.2 < 1000

instance (t : ℤ × ℤ × ℤ) : Decidable (tuplaValida t) := by
  unfold tuplaValida; infer_instance

/-! ## Transcription worker
(`transcrever_audio_faster_whisper`/`formatar_timestamp`,
`pica.video.09.py` 131-215, 240-250) -/

/-- Python whitespace as used by `str.strip`, `str.split` and regex
`\s` — modelled by the ASCII whitespace characters, the only ones the
pipeline's inputs contain. -/
def ehEspaco (c : Char) : Bool :=
  c = ' ' || c = '\t' || c = '\n' || c = '\r' || c = '\x0b' || c = '\x0c'

/-- Python `str.strip()`. -/
def py_strip (s : String) : String :=
  ⟨((s.data.dropWhile ehEspaco).reverse.dropWhile ehEspaco).reverse⟩

/-- `formatar_timestamp(segundos)` (`pica.video.09.py` 240-250):
`f"{horas:02d}:{minutos:02d}:{segs:02d},{milissegundos:03d}"` with
`horas = int(s // 3600)`, `minutos = int((s % 3600) // 60)`,
`segs = int(s % 60)`, `milissegundos = int((s - int(s)) * 1000)`. -/
def formatar_timestamp (segundos : ℚ) : String :=
  fmt0d 2 (pyInt (pyFloorDiv segundos 3600)) ++ ":"
    ++ fmt0d 2 (pyInt (pyFloorDiv (pyMod segundos 3600) 60)) ++ ":"
    ++ fmt0d 2 (pyInt (pyMod segundos 60)) ++ ","
    ++ fmt0d 3 (pyInt ((segundos - (pyInt segundos : ℚ)) * 1000))

/-- One SRT block: `f"{id}\n{start} --> {end}\n{text}\n\n"`. -/
def bloco_srt (i : Nat) (inicio fim : ℚ) (texto : String) : String :=
  natToStr i ++ "\n" ++ formatar_timestamp inicio ++ " --> "
    ++ formatar_timestamp fim ++ "\n" ++ texto ++ "\n\n"

/-- One time-coded transcript line: `f"{timestamp}: {text}\n"`. -/
def linha_fala (inicio : ℚ) (texto : String) : String :=
  formatar_timestamp inicio ++ ": " ++ texto ++ "\n"

/-- SRT file contents written by the segment loop, ids counting up from
the given start (the loop starts at `segment_id = 1`). -/
def srt_de : Nat → List (ℚ × ℚ × String) → String
  | _, [] => ""
  | i, (inicio, fim, texto) :: rest =>
    bloco_srt i inicio fim texto ++ srt_de (i + 1) rest

/-- `Fala.Cronometrada` file contents written by the segment loop. -/
def fala_de : List (ℚ × ℚ × String) → String
  | [] => ""
  | (inicio, _, texto) :: rest => linha_fala inicio texto ++ fala_de rest

/-- What one transcription run writes: the files (name, full contents)
and whether the translation model was loaded and applied. -/
structure SaidaTranscricao where
  arquivos : List (String × String)
  usou_traducao : Bool

/-- The output of `transcrever_audio_faster_whisper` as a function of
the detected language, the segment sequence and the (abstracted)
translation model: when the detected language is `"en"` the worker
writes `-en`-suffixed source-language files plus translated
target-language files; otherwise it writes only the target-language
files with the untranslated segment texts. -/
def transcrever (traduzir : String → String) (base_path detected : String)
    (segmentos : List (ℚ × ℚ × String)) : SaidaTranscricao :=
  let segs := segmentos.map (fun s => (s.1, s.2.1, py_strip s.2.2))
  if detected = "en" then
    let segsTrad := segs.map (fun s => (s.1, s.2.1, traduzir s.2.2))
    { arquivos := [
        (base_path ++ "-en.srt", srt_de 1 segs),
        (base_path ++ "-en-Fala.Cronometrada.txt", fala_de segs),
        (base_path ++ ".srt", srt_de 1 segsTrad),
        (base_path ++ "-Fala.Cronometrada.txt", fala_de segsTrad)],
      usou_traducao := true }
  else
    { arquivos := [
        (base_path ++ ".srt", srt_de 1 segs),
        (base_path ++ "-Fala.Cronometrada.txt", fala_de segs)],
      usou_traducao := false }

/-! ## Legibility classifier
(`texto_legivel`, `src/_antigos/pica.video.03.py` 105-132) -/

/-- The target-alphabet class `[A-Za-zÀ-ÖØ-öø-ÿ]` of the cleanup regex
(code points 65-90, 97-122, 0xC0-0xD6, 0xD8-0xF6, 0xF8-0xFF). -/
def charPermitido (c : Char) : Bool :=
  (65 ≤ c.toNat && c.toNat ≤ 90) || (97 ≤ c.toNat && c.toNat ≤ 122) ||
  (192 ≤ c.toNat && c.toNat ≤ 214) || (216 ≤ c.toNat && c.toNat ≤ 246) ||
  (248 ≤ c.toNat && c.toNat ≤ 255)

/-- `re.sub(r'\s+', ' ', ·)`: collapse every whitespace run to one
space.  The flag records whether the previous character was part of a
run already replaced. -/
def colapsarAux : Bool → List Char → List Char
  | _, [] => []
  | prevEspaco, c :: rest =>
    if ehEspaco c then
      if prevEspaco then colapsarAux true rest
      else ' ' :: colapsarAux true rest
    else c :: colapsarAux false rest

/-- `str.strip()` on a character list. -/
def stripChars (l : List Char) : List Char :=
  ((l.dropWhile ehEspaco).reverse.dropWhile ehEspaco).reverse

/-- `texto_limpo` (lines 109-110): strip all characters outside the
target alphabet and whitespace, collapse whitespace, strip the ends. -/
def texto_limpo_de (texto : String) : List Char :=
  stripChars (colapsarAux false
    (texto.data.filter fun c => charPermitido c || ehEspaco c))

/-- Python `str.split()` (split on whitespace runs, no empty words);
`acc` holds the current word reversed. -/
def palavrasAux : List Char → List Char → List (List Char)
  | acc, [] => if acc.isEmpty then [] else [acc.reverse]
  | acc, c :: rest =>
    if ehEspaco c then
      if acc.isEmpty then palavrasAux [] rest
      else acc.reverse :: palavrasAux [] rest
    else palavrasAux (c :: acc) rest

/-- `texto_limpo.split()`. -/
def py_split (l : List Char) : List (List Char) := palavrasAux [] l

/-- `texto_legivel(texto)`: cleanup, reject if empty, reject unless the
detector (whose exceptions the `except` clause turns into `False`)
returns `'pt'`, then require at least one word of length ≥ 4. -/
def texto_legivel (detectar : String → Except String String)
    (texto : String) : Bool :=
  let limpo := texto_limpo_de texto
  if limpo.isEmpty then false
  else
    match detectar ⟨limpo⟩ with
    | .error _ => false
    | .ok idioma =>
      if idioma ≠ "pt" then false
      else
        let palavras := py_split limpo
        let palavras_longas := palavras.filter (fun p => 4 ≤ p.length)
        if 0 < palavras_longas.length then true else false

/-! ## Timestamp reconstructor
(`analisar_dados_log`, `pica.video.09.py` 73-89) -/

/-- The `[0-9.]` class of the capture group. -/
def ehCharPts (c : Char) : Bool := c.isDigit || c = '.'

/-- `re.search(r'pts_time:([0-9.]+)', linha)`: scan left to right for
the first position where the 9-character literal `pts_time:` is
followed by at least one `[0-9.]` character; the greedy capture is the
maximal such run (nothing follows it in the pattern, so no
backtracking).  If the literal matches but no `[0-9.]` follows, the
engine moves on one character, as Python's does. -/
def buscar_pts : List Char → Option (List Char)
  | [] => none
  | c :: rest =>
    if ("pts_time:".data).isPrefixOf (c :: rest) then
      let cap := ((c :: rest).drop 9).takeWhile ehCharPts
      if cap.isEmpty then buscar_pts rest else some cap
    else buscar_pts rest

/-- Python `float(s)` succeeds on a `[0-9.]+` string iff it has at most
one dot and at least one digit (`"1."` and `".5"` parse; `"."` and
`"1.2.3"` raise `ValueError`). -/
def ehFloat (cs : List Char) : Bool :=
  (cs.count '.' ≤ 1) && cs.any Char.isDigit

/-- Exact value of a valid `[0-9.]+` float literal: integer part before
the dot plus the decimal fraction after it. -/
def valorFloat (cs : List Char) : ℚ :=
  let intPart := cs.takeWhile Char.isDigit
  let fracPart := (cs.dropWhile Char.isDigit).drop 1
  (strVal intPart : ℚ) + (strVal fracPart : ℚ) / 10 ^ fracPart.length

/-- `float(match.group(1))`: `none` models the `ValueError`. -/
def parseFloat? (cs : List Char) : Option ℚ :=
  if ehFloat cs then some (valorFloat cs) else none

/-- The loop of `analisar_dados_log`: one `re.search` per line, skip a
line with no match, convert a match's capture with `float()` — a
`ValueError` on a malformed capture escapes the loop (the `except`
clause only logs and re-raises) — else append the converted tuple. -/
def analisarAux : List String → List (ℤ × ℤ × ℤ) →
    Except String (List (ℤ × ℤ × ℤ))
  | [], acc => .ok acc
  | linha :: rest, acc =>
    match buscar_pts linha.data with
    | none => analisarAux rest acc
    | some cap =>
      match parseFloat? cap with
      | none => .error "could not convert string to float"
      | some t => analisarAux rest (acc ++ [tupla_pts t])

/-- `analisar_dados_log(dados_log)`. -/
def analisar_dados_log (dados_log : List String) :
    Except String (List (ℤ × ℤ × ℤ)) :=
  analisarAux dados_log []

/-! ## Pipeline coordinator and worker fault isolation
(`processar_frames` 106-128, `processar_transcricao` 252-259,
`process_files` 448-514 of `pica.video.09.py`)

Each worker's entire body runs inside `try`; the `except` clause puts
an error string on the worker's own queue instead of re-raising, so a
worker is a total function from the outcome of its fallible stage to
the list of messages put on its channel. -/

/-- A value put on a progress queue: a fraction or a status/error
string (the GUI distinguishes them with `isinstance(msg, float)`). -/
inductive Mensagem where
  | frac (progresso : ℚ)
  | texto (s : String)

/-- Messages `processar_frames` puts on success: one fraction per
renamed frame, then the completion line (lines 119-125). -/
def msgs_frames_ok (tempos : List (ℤ × ℤ × ℤ)) : List Mensagem :=
  ((List.range tempos.length).map
    (fun i => Mensagem.frac ((i + 1 : ℚ) / tempos.length)))
  ++ [Mensagem.texto "Processamento de frames concluído!"]

/-- `processar_frames`: a failure anywhere in extraction (decoder
timeout or non-zero exit), log parsing or renaming surfaces as the
exception `e`, and the `except` clause puts
`f"Erro ao processar frames: {e}"` on the frame queue — nothing is
raised past the worker. -/
def processar_frames (resultado : Except String (List (ℤ × ℤ × ℤ))) :
    List Mensagem :=
  match resultado with
  | .ok tempos => msgs_frames_ok tempos
  | .error e => [Mensagem.texto ("Erro ao processar frames: " ++ e)]

/-- Messages the transcription worker puts on success: one fraction per
segment (lines 202-205), then the completion line (line 256). -/
def msgs_transcricao_ok (segmentos : List (ℚ × ℚ × String)) : List Mensagem :=
  ((List.range segmentos.length).map
    (fun i => Mensagem.frac ((i + 1 : ℚ) / segmentos.length)))
  ++ [Mensagem.texto "Transcrição de áudio concluída!"]

/-- `processar_transcricao`: a model-load or transcription failure is
caught and put as `f"Erro na transcrição: {e}"` on the transcription
queue — nothing is raised past the worker. -/
def processar_transcricao
    (resultado : Except String (List (ℚ × ℚ × String))) : List Mensagem :=
  match resultado with
  | .ok segs => msgs_transcricao_ok segs
  | .error e => [Mensagem.texto ("Erro na transcrição: " ++ e)]

/-- One input file's sub-pipeline outcomes: what its frame pipeline's
fallible stages and its transcription's fallible stages produce. -/
structure Trabalho where
  frames : Except String (List (ℤ × ℤ × ℤ))
  transcricao : Except String (List (ℚ × ℚ × String))

/-- Processing one file: the two workers run independently, each
feeding only its own channel. -/
def processar_arquivo (t : Trabalho) : List Mensagem × List Mensagem :=
  (processar_frames t.frames, processar_transcricao t.transcricao)

/-- The `process_files` loop: files are processed one after another,
each file's outcome depending only on its own `Trabalho`. -/
def process_files (ts : List Trabalho) :
    List (List Mensagem × List Mensagem) :=
  ts.map processar_arquivo


/-! ## Theorems -/

theorem charVal_digitChar {d : Nat} (h : d < 10) : charVal (digitChar d) = d := by
  interval_cases d <;> rfl

theorem digitChar_ne_dash (d : Nat) : digitChar d ≠ '-' := by
  rcases Nat.lt_or_ge d 10 with h | h
  · interval_cases d <;> decide
  · unfold digitChar
    rw [List.getD_eq_default _ _ (by simpa using h)]
    decide

theorem fromDigits_natDigitsAux : ∀ fuel n, n ≤ fuel →
    fromDigits (natDigitsAux fuel n) = n := by
  intro fuel
  induction fuel with
  | zero => intro n hn; interval_cases n; rfl
  | succ fuel ih =>
    intro n hn
    unfold natDigitsAux
    by_cases h0 : n = 0
    · simp [h0, fromDigits]
    · have hdiv : n / 10 ≤ fuel := by
        have : n / 10 < n := Nat.div_lt_self (Nat.pos_of_ne_zero h0) (by omega)
        omega
      simp only [h0, if_false, fromDigits, ih _ hdiv]
      omega

theorem natDigitsAux_lt10 : ∀ fuel n d, d ∈ natDigitsAux fuel n → d < 10 := by
  intro fuel
  induction fuel with
  | zero => intro n d h; simp [natDigitsAux] at h
  | succ fuel ih =>
    intro n d h
    unfold natDigitsAux at h
    by_cases h0 : n = 0
    · simp [h0] at h
    · simp only [h0, if_false, List.mem_cons] at h
      rcases h with h | h
      · subst h; exact Nat.mod_lt _ (by omega)
      · exact ih _ _ h

theorem natDigitsAux_length_le : ∀ fuel n k, n < 10 ^ k →
    (natDigitsAux fuel n).length ≤ k := by
  intro fuel
  induction fuel with
  | zero => intro n k _; simp [natDigitsAux]
  | succ fuel ih =>
    intro n k hk
    unfold natDigitsAux
    by_cases h0 : n = 0
    · simp [h0]
    · have hkpos : 0 < k := by
        rcases Nat.eq_zero_or_pos k with h | h
        · subst h; simp at hk; omega
        · exact h
      have hdiv : n / 10 < 10 ^ (k - 1) := by
        rw [Nat.div_lt_iff_lt_mul (by omega)]
        calc n < 10 ^ k := hk
        _ = 10 ^ (k - 1) * 10 := by
              rw [← pow_succ]; congr 1; omega
      simp only [h0, if_false, List.length_cons]
      have := ih (n / 10) (k - 1) hdiv
      omega

theorem natDigitsAux_ne_dash : ∀ fuel n d, d ∈ natDigitsAux fuel n →
    digitChar d ≠ '-' := fun _ _ d _ => digitChar_ne_dash d

theorem foldl_digits_reverse : ∀ (ds : List Nat) (acc : Nat),
    List.foldl (fun a d => 10 * a + d) acc ds.reverse
      = acc * 10 ^ ds.length + fromDigits ds := by
  intro ds
  induction ds with
  | nil => intro acc; simp [fromDigits]
  | cons d ds ih =>
    intro acc
    simp only [List.reverse_cons, List.foldl_append, List.foldl_cons,
      List.foldl_nil, ih, fromDigits, List.length_cons]
    ring

theorem foldl_charVal_digitChar : ∀ (ds : List Nat) (acc : Nat),
    (∀ d ∈ ds, d < 10) →
    List.foldl (fun a c => 10 * a + charVal c) acc (ds.map digitChar)
      = List.foldl (fun a d => 10 * a + d) acc ds := by
  intro ds
  induction ds with
  | nil => intro acc _; rfl
  | cons d ds ih =>
    intro acc h
    simp only [List.map_cons, List.foldl_cons]
    rw [charVal_digitChar (h d (List.mem_cons_self _ _)),
      ih _ (fun x hx => h x (List.mem_cons_of_mem _ hx))]

theorem strVal_natToStr (n : Nat) : strVal (natToStr n).data = n := by
  unfold natToStr
  by_cases h0 : n = 0
  · simp [h0, strVal, charVal]
  · simp only [h0, if_false]
    show strVal (((natDigits n).reverse.map digitChar)) = n
    unfold strVal
    rw [foldl_charVal_digitChar ((natDigits n).reverse) 0
      (fun d hd => natDigitsAux_lt10 _ _ _ (List.mem_reverse.mp hd)),
      foldl_digits_reverse]
    simp [natDigits, fromDigits_natDigitsAux n n le_rfl]

theorem foldl_zeros (k : Nat) :
    List.foldl (fun a c => 10 * a + charVal c) 0 (List.replicate k '0') = 0 := by
  induction k with
  | zero => rfl
  | succ k ih => simpa [List.replicate_succ, charVal] using ih

theorem strVal_leftPad (w : Nat) (s : String) :
    strVal (leftPad w s).data = strVal s.data := by
  unfold leftPad strVal
  show List.foldl _ 0 (List.replicate _ '0' ++ s.data) = _
  rw [List.foldl_append, foldl_zeros]

theorem strVal_fmt0d {n : ℤ} (h : 0 ≤ n) (w : Nat) :
    strVal (fmt0d w n).data = n.toNat := by
  unfold fmt0d
  rw [if_neg (by omega), strVal_leftPad, strVal_natToStr]

theorem fmt0d_inj {a b : ℤ} (ha : 0 ≤ a) (hb : 0 ≤ b) (w : Nat)
    (h : fmt0d w a = fmt0d w b) : a = b := by
  have := congrArg (fun s => strVal s.data) h
  simp only [strVal_fmt0d ha, strVal_fmt0d hb] at this
  omega

theorem natToStr_length_le {n k : Nat} (hk : 0 < k) (h : n < 10 ^ k) :
    (natToStr n).length ≤ k := by
  unfold natToStr
  by_cases h0 : n = 0
  · simpa [h0, String.length] using hk
  · simp only [h0, if_false]
    show ((natDigits n).reverse.map digitChar).length ≤ k
    simp only [List.length_map, List.length_reverse]
    exact natDigitsAux_length_le _ _ _ h

theorem leftPad_length {w : Nat} {s : String} (h : s.length ≤ w) :
    (leftPad w s).length = w := by
  unfold leftPad
  show (List.replicate (w - s.length) '0' ++ s.data).length = w
  simp only [List.length_append, List.length_replicate]
  have : s.data.length = s.length := rfl
  omega

theorem fmt0d_length {n : ℤ} {w : Nat} (h0 : 0 ≤ n) (hw : 0 < w)
    (h : n < 10 ^ w) : (fmt0d w n).length = w := by
  unfold fmt0d
  rw [if_neg (by omega)]
  refine leftPad_length (natToStr_length_le hw ?_)
  have : (10 : ℤ) ^ w = ((10 ^ w : Nat) : ℤ) := by push_cast; ring
  omega

theorem dash_not_mem_natToStr (n : Nat) : '-' ∉ (natToStr n).data := by
  unfold natToStr
  by_cases h0 : n = 0
  · rw [if_pos h0]; decide
  · simp only [h0, if_false]
    show '-' ∉ (natDigits n).reverse.map digitChar
    intro hmem
    rcases List.mem_map.mp hmem with ⟨d, hd, heq⟩
    exact digitChar_ne_dash d heq

theorem dash_not_mem_fmt0d {n : ℤ} (h : 0 ≤ n) (w : Nat) :
    '-' ∉ (fmt0d w n).data := by
  unfold fmt0d
  rw [if_neg (by omega)]
  unfold leftPad
  intro hmem
  rcases List.mem_append.mp hmem with hmem | hmem
  · exact absurd (List.eq_of_mem_replicate hmem) (by decide)
  · exact dash_not_mem_natToStr _ hmem

theorem pyInt_of_nonneg {q : ℚ} (h : 0 ≤ q) : pyInt q = ⌊q⌋ :=
  if_neg (not_lt.mpr h)

theorem pyMod_nonneg {a b : ℚ} (hb : 0 < b) : 0 ≤ pyMod a b := by
  unfold pyMod
  have h1 : (⌊a / b⌋ : ℚ) ≤ a / b := Int.floor_le _
  have h2 : b * (⌊a / b⌋ : ℚ) ≤ b * (a / b) :=
    mul_le_mul_of_nonneg_left h1 (le_of_lt hb)
  have h3 : b * (a / b) = a := mul_div_cancel₀ a (ne_of_gt hb)
  linarith

theorem pyMod_lt {a b : ℚ} (hb : 0 < b) : pyMod a b < b := by
  unfold pyMod
  have h1 : a / b < (⌊a / b⌋ : ℚ) + 1 := Int.lt_floor_add_one _
  have h2 : b * (a / b) = a := mul_div_cancel₀ a (ne_of_gt hb)
  nlinarith

theorem tupla_pts_eq {t : ℚ} (ht : 0 ≤ t) :
    tupla_pts t = (⌊t / 60⌋, ⌊t⌋ - 60 * ⌊t / 60⌋, ⌊(t - ⌊t⌋) * 1000⌋) := by
  unfold tupla_pts
  have h1 : pyInt (pyFloorDiv t 60) = ⌊t / 60⌋ := by
    have : (0 : ℚ) ≤ (⌊t / 60⌋ : ℚ) := by
      exact_mod_cast Int.floor_nonneg.mpr (div_nonneg ht (by norm_num))
    rw [pyFloorDiv, pyInt_of_nonneg this, Int.floor_intCast]
  have h2 : pyInt (pyMod t 60) = ⌊t⌋ - 60 * ⌊t / 60⌋ := by
    rw [pyInt_of_nonneg (pyMod_nonneg (by norm_num))]
    unfold pyMod
    have : t - 60 * (⌊t / 60⌋ : ℚ) = t - ((60 * ⌊t / 60⌋ : ℤ) : ℚ) := by
      push_cast; ring
    rw [this, Int.floor_sub_int]
  have h3 : pyInt ((t - (pyInt t : ℚ)) * 1000) = ⌊(t - ⌊t⌋) * 1000⌋ := by
    rw [pyInt_of_nonneg ht, pyInt_of_nonneg (by nlinarith [Int.floor_le t])]
  rw [h1, h2, h3]

/-- C2: for every captured `pts_time` seconds value `t ≥ 0`, the
`(minutes, seconds, milliseconds)` tuple computed by
`analisar_dados_log` reassembles to within 1 ms of `t`. -/
theorem claim_C2 (t : ℚ) (ht : 0 ≤ t) :
    |((tupla_pts t).1 * 60 + (tupla_pts t).2.1 + (tupla_pts t).2.2 / 1000 : ℚ) - t|
      ≤ 1 / 1000 := by
  rw [tupla_pts_eq ht]
  have hfl : (⌊t⌋ : ℚ) ≤ t := Int.floor_le t
  have hfu : t < (⌊t⌋ : ℚ) + 1 := Int.lt_floor_add_one t
  have hml : (⌊(t - ⌊t⌋) * 1000⌋ : ℚ) ≤ (t - ⌊t⌋) * 1000 := Int.floor_le _
  have hmu : (t - ⌊t⌋) * 1000 < (⌊(t - ⌊t⌋) * 1000⌋ : ℚ) + 1 :=
    Int.lt_floor_add_one _
  rw [abs_le]
  constructor <;> [skip; skip] <;> push_cast <;> linarith

/-- C2 witness at `t = 5/2`. -/
theorem claim_C2_witness :
    |((tupla_pts (5/2)).1 * 60 + (tupla_pts (5/2)).2.1
        + (tupla_pts (5/2)).2.2 / 1000 : ℚ) - 5/2| ≤ 1 / 1000 :=
  claim_C2 (5/2) (by norm_num)

/-- C10: for every captured `pts_time` value `t ≥ 0`, the seconds field
lies in `[0, 59]` and the milliseconds field in `[0, 999]`, so the
two-digit and three-digit filename fields never overflow. -/
theorem claim_C10 (t : ℚ) (ht : 0 ≤ t) :
    0 ≤ (tupla_pts t).2.1 ∧ (tupla_pts t).2.1 ≤ 59 ∧
    0 ≤ (tupla_pts t).2.2 ∧ (tupla_pts t).2.2 ≤ 999 := by
  have e := tupla_pts_eq ht
  have hs : (tupla_pts t).2.1 = ⌊t⌋ - 60 * ⌊t / 60⌋ := by rw [e]
  have hms : (tupla_pts t).2.2 = ⌊(t - ⌊t⌋) * 1000⌋ := by rw [e]
  have ht60 : 60 * (t / 60) = t := by ring
  have hdl : (⌊t / 60⌋ : ℚ) ≤ t / 60 := Int.floor_le _
  have hdu : t / 60 < (⌊t / 60⌋ : ℚ) + 1 := Int.lt_floor_add_one _
  have hfl : (⌊t⌋ : ℚ) ≤ t := Int.floor_le t
  have hfu : t < (⌊t⌋ : ℚ) + 1 := Int.lt_floor_add_one t
  have h1 : 60 * ⌊t / 60⌋ ≤ ⌊t⌋ := by
    apply Int.le_floor.mpr; push_cast; linarith
  have h2 : ⌊t⌋ < 60 * ⌊t / 60⌋ + 60 := by
    have : (⌊t⌋ : ℚ) < 60 * (⌊t / 60⌋ : ℚ) + 60 := by linarith
    exact_mod_cast this
  have h3 : 0 ≤ ⌊(t - ⌊t⌋) * 1000⌋ := Int.floor_nonneg.mpr (by nlinarith)
  have h4 : ⌊(t - ⌊t⌋) * 1000⌋ < 1000 := Int.floor_lt.mpr (by push_cast; nlinarith)
  rw [hs, hms]
  omega

/-- C10 witness at `t = 5/2`. -/
theorem claim_C10_witness :
    0 ≤ (tupla_pts (5/2)).2.1 ∧ (tupla_pts (5/2)).2.1 ≤ 59 ∧
    0 ≤ (tupla_pts (5/2)).2.2 ∧ (tupla_pts (5/2)).2.2 ≤ 999 :=
  claim_C10 (5/2) (by norm_num)

theorem dash_not_mem_origName (k : Nat) : '-' ∉ (origName k).data := by
  unfold origName
  intro h
  simp only [String.data_append] at h
  rcases List.mem_append.mp h with h | h
  · rcases List.mem_append.mp h with h | h
    · exact (by decide : '-' ∉ ("frame_" : String).data) h
    · exact dash_not_mem_fmt0d (Int.natCast_nonneg k) 6 h
  · exact (by decide : '-' ∉ (".png" : String).data) h

theorem dash_mem_destName (base : String) (t : ℤ × ℤ × ℤ) :
    '-' ∈ (destName base t).data := by
  unfold destName
  simp only [String.data_append, List.mem_append]
  have : '-' ∈ ("-" : String).data := by decide
  tauto

theorem destName_ne_origName (base : String) (t : ℤ × ℤ × ℤ) (k : Nat) :
    destName base t ≠ origName k := by
  intro h
  exact dash_not_mem_origName k (h ▸ dash_mem_destName base t)

theorem origName_inj {a b : Nat} (h : origName a = origName b) : a = b := by
  unfold origName at h
  have h' := congrArg String.data h
  simp only [String.data_append, List.append_assoc] at h'
  have h2 := List.append_cancel_left h'
  have h3 := (List.append_inj' h2 rfl).1
  have h4 := congrArg strVal h3
  rw [strVal_fmt0d (Int.natCast_nonneg a), strVal_fmt0d (Int.natCast_nonneg b)] at h4
  omega

theorem destName_inj {base : String} {t₁ t₂ : ℤ × ℤ × ℤ}
    (h₁ : tuplaValida t₁) (h₂ : tuplaValida t₂)
    (h : destName base t₁ = destName base t₂) : t₁ = t₂ := by
  obtain ⟨hm₁, hs₁, hs₁', hms₁, hms₁'⟩ := h₁
  obtain ⟨hm₂, hs₂, hs₂', hms₂, hms₂'⟩ := h₂
  have hS₁ : (fmt0d 2 t₁.2.1).length = 2 := fmt0d_length hs₁ (by norm_num) (by norm_num at hs₁' ⊢; omega)
  have hS₂ : (fmt0d 2 t₂.2.1).length = 2 := fmt0d_length hs₂ (by norm_num) (by norm_num at hs₂' ⊢; omega)
  have hM₁ : (fmt0d 3 t₁.2.2).length = 3 := fmt0d_length hms₁ (by norm_num) (by norm_num at hms₁' ⊢; omega)
  have hM₂ : (fmt0d 3 t₂.2.2).length = 3 := fmt0d_length hms₂ (by norm_num) (by norm_num at hms₂' ⊢; omega)
  unfold destName at h
  have h' := congrArg String.data h
  simp only [String.data_append, List.append_assoc] at h'
  have h1 := List.append_cancel_left h'
  have h2 := List.append_cancel_left h1
  have h3 := List.append_cancel_left h2
  -- h3 : M₁ ++ "-" ++ S₁ ++ "-" ++ MS₁ ++ ".png" = M₂ ++ ... (right associated)
  have hlen : (("-" : String).data ++ ((fmt0d 2 t₁.2.1).data ++ (("-" : String).data
        ++ ((fmt0d 3 t₁.2.2).data ++ (".png" : String).data)))).length
      = (("-" : String).data ++ ((fmt0d 2 t₂.2.1).data ++ (("-" : String).data
        ++ ((fmt0d 3 t₂.2.2).data ++ (".png" : String).data)))).length := by
    simp only [List.length_append]
    have e1 : (fmt0d 2 t₁.2.1).data.length = 2 := hS₁
    have e2 : (fmt0d 2 t₂.2.1).data.length = 2 := hS₂
    have e3 : (fmt0d 3 t₁.2.2).data.length = 3 := hM₁
    have e4 : (fmt0d 3 t₂.2.2).data.length = 3 := hM₂
    omega
  obtain ⟨hMeq, hrest⟩ := List.append_inj' h3 hlen
  have hmins : t₁.1 = t₂.1 := by
    have := congrArg strVal hMeq
    rw [strVal_fmt0d hm₁, strVal_fmt0d hm₂] at this
    omega
  have hrest2 := List.append_cancel_left hrest
  obtain ⟨hSeq, hrest3⟩ := List.append_inj hrest2 (by
    have e1 : (fmt0d 2 t₁.2.1).data.length = 2 := hS₁
    have e2 : (fmt0d 2 t₂.2.1).data.length = 2 := hS₂
    omega)
  have hsecs : t₁.2.1 = t₂.2.1 := by
    have := congrArg strVal hSeq
    rw [strVal_fmt0d hs₁, strVal_fmt0d hs₂] at this
    omega
  have hrest4 := List.append_cancel_left hrest3
  obtain ⟨hMSeq, _⟩ := List.append_inj' hrest4 rfl
  have hmils : t₁.2.2 = t₂.2.2 := by
    have := congrArg strVal hMSeq
    rw [strVal_fmt0d hms₁, strVal_fmt0d hms₂] at this
    omega
  exact Prod.ext hmins (Prod.ext hsecs hmils)

theorem mem_renomearAux {base : String} :
    ∀ (t : List (ℤ × ℤ × ℤ)) (i : Nat) (fs : Finset String) (x : String),
      x ∈ renomearAux base t i fs → x ∈ fs ∨ ∃ tup ∈ t, x = destName base tup := by
  intro t
  induction t with
  | nil => intro i fs x h; exact Or.inl h
  | cons tr rest ih =>
    intro i fs x h
    rcases ih (i + 1) _ x h with hx | ⟨tup, htup, rfl⟩
    · by_cases hc : origName (i + 1) ∈ fs
      · rw [if_pos hc] at hx
        rcases Finset.mem_insert.mp hx with h1 | h2
        · exact Or.inr ⟨tr, List.mem_cons_self _ _, h1⟩
        · exact Or.inl (Finset.mem_of_mem_erase h2)
      · rw [if_neg hc] at hx
        exact Or.inl hx
    · exact Or.inr ⟨tup, List.mem_cons_of_mem _ htup, rfl⟩

theorem orig_not_mem_renomearAux {base : String} {k : Nat} :
    ∀ (t : List (ℤ × ℤ × ℤ)) (i : Nat) (fs : Finset String),
      origName k ∉ fs → origName k ∉ renomearAux base t i fs := by
  intro t i fs h hmem
  rcases mem_renomearAux t i fs _ hmem with hx | ⟨tup, _, heq⟩
  · exact h hx
  · exact destName_ne_origName base tup k heq.symm

theorem dest_mem_renomearAux {base : String} {tup : ℤ × ℤ × ℤ} :
    ∀ (t : List (ℤ × ℤ × ℤ)) (i : Nat) (fs : Finset String),
      destName base tup ∈ fs → destName base tup ∈ renomearAux base t i fs := by
  intro t
  induction t with
  | nil => intro i fs h; exact h
  | cons tr rest ih =>
    intro i fs h
    apply ih (i + 1)
    by_cases hc : origName (i + 1) ∈ fs
    · rw [if_pos hc]
      exact Finset.mem_insert_of_mem
        (Finset.mem_erase.mpr ⟨destName_ne_origName base tup (i + 1), h⟩)
    · rwa [if_neg hc]

theorem orig_not_mem_after {base : String} :
    ∀ (t : List (ℤ × ℤ × ℤ)) (i j : Nat) (fs : Finset String), j < t.length →
      origName (i + j + 1) ∉ renomearAux base t i fs := by
  intro t
  induction t with
  | nil => intro i j fs hj; simp at hj
  | cons tr rest ih =>
    intro i j fs hj
    match j with
    | 0 =>
      show origName (i + 1) ∉ renomearAux base rest (i + 1)
        (if origName (i + 1) ∈ fs then
          insert (destName base tr) (fs.erase (origName (i + 1))) else fs)
      apply orig_not_mem_renomearAux
      by_cases hc : origName (i + 1) ∈ fs
      · rw [if_pos hc]
        intro hmem
        rcases Finset.mem_insert.mp hmem with h1 | h2
        · exact destName_ne_origName base tr (i + 1) h1.symm
        · exact (Finset.mem_erase.mp h2).1 rfl
      · rwa [if_neg hc]
    | j' + 1 =>
      have hj' : j' < rest.length := by simpa [Nat.succ_lt_succ_iff] using hj
      show origName (i + (j' + 1) + 1) ∉ renomearAux base rest (i + 1)
        (if origName (i + 1) ∈ fs then
          insert (destName base tr) (fs.erase (origName (i + 1))) else fs)
      have harg : i + (j' + 1) + 1 = i + 1 + j' + 1 := by omega
      rw [harg]
      exact ih (i + 1) j' _ hj'

theorem renomearAux_noop {base : String} :
    ∀ (t : List (ℤ × ℤ × ℤ)) (i : Nat) (fs : Finset String),
      (∀ j, j < t.length → origName (i + j + 1) ∉ fs) →
      renomearAux base t i fs = fs := by
  intro t
  induction t with
  | nil => intro i fs _; rfl
  | cons tr rest ih =>
    intro i fs h
    have h0 : origName (i + 1) ∉ fs := h 0 (by simp)
    show renomearAux base rest (i + 1) _ = fs
    rw [if_neg h0]
    apply ih
    intro j hj
    have := h (j + 1) (by simpa [Nat.succ_lt_succ_iff] using hj)
    have harg : i + (j + 1) + 1 = i + 1 + j + 1 := by omega
    rwa [harg] at this

theorem renomearAux_append {base : String} :
    ∀ (xs ys : List (ℤ × ℤ × ℤ)) (i : Nat) (fs : Finset String),
      renomearAux base (xs ++ ys) i fs
        = renomearAux base ys (i + xs.length) (renomearAux base xs i fs) := by
  intro xs
  induction xs with
  | nil => intro ys i fs; simp [renomearAux]
  | cons x xs ih =>
    intro ys i fs
    show renomearAux base (xs ++ ys) (i + 1)
        (if origName (i + 1) ∈ fs then
          insert (destName base x) (fs.erase (origName (i + 1))) else fs)
      = renomearAux base ys (i + (xs.length + 1))
        (renomearAux base xs (i + 1)
          (if origName (i + 1) ∈ fs then
            insert (destName base x) (fs.erase (origName (i + 1))) else fs))
    rw [ih]
    have harg : i + 1 + xs.length = i + (xs.length + 1) := by omega
    rw [harg]

theorem renamed_mem {base : String} :
    ∀ (t : List (ℤ × ℤ × ℤ)) (i j : Nat) (hj : j < t.length) (fs : Finset String),
      origName (i + j + 1) ∈ fs →
      destName base (t.get ⟨j, hj⟩) ∈ renomearAux base t i fs := by
  intro t
  induction t with
  | nil => intro i j hj; simp at hj
  | cons tr rest ih =>
    intro i j hj fs hmem
    match j with
    | 0 =>
      show destName base tr ∈ renomearAux base rest (i + 1) _
      rw [if_pos hmem]
      exact dest_mem_renomearAux _ _ _ (Finset.mem_insert_self _ _)
    | j' + 1 =>
      have hj' : j' < rest.length := by simpa [Nat.succ_lt_succ_iff] using hj
      show destName base (rest.get ⟨j', hj'⟩) ∈ renomearAux base rest (i + 1) _
      apply ih (i + 1) j' hj'
      have harg : i + 1 + j' + 1 = i + (j' + 1) + 1 := by omega
      rw [harg]
      by_cases hc : origName (i + 1) ∈ fs
      · rw [if_pos hc]
        apply Finset.mem_insert_of_mem
        refine Finset.mem_erase.mpr ⟨?_, hmem⟩
        intro heq
        have := origName_inj heq
        omega
      · rwa [if_neg hc]

/-- C6: frame renaming is idempotent — running `renomear_frames` a
second time with the same timestamp list on the already-renamed
directory changes nothing (and, being a total function, raises no
error). -/
theorem claim_C6 (tempos : List (ℤ × ℤ × ℤ)) (base : String)
    (fs : Finset String) :
    renomear_frames tempos base (renomear_frames tempos base fs)
      = renomear_frames tempos base fs := by
  unfold renomear_frames
  apply renomearAux_noop
  intro j hj
  exact orig_not_mem_after tempos 0 j fs hj

/-- C5 counterexample: with the monotone non-decreasing timestamp list
`[(0,0,0), (0,0,0)]` (equal consecutive timestamps, which the claim
explicitly includes), the distinct extraction indices 0 and 1 are
assigned the same target filename, refuting the claimed 1:1 mapping. -/
theorem claim_C5_counterexample :
    ¬ (∀ (base : String) (tempos : List (ℤ × ℤ × ℤ)),
        (∀ tr ∈ tempos, tuplaValida tr) →
        List.Chain' (fun a b : ℤ × ℤ × ℤ =>
          a.1 * 60000 + a.2.1 * 1000 + a.2.2
            ≤ b.1 * 60000 + b.2.1 * 1000 + b.2.2) tempos →
        ∀ (i j : Nat) (hi : i < tempos.length) (hj : j < tempos.length),
          i ≠ j →
          destName base (tempos.get ⟨i, hi⟩)
            ≠ destName base (tempos.get ⟨j, hj⟩)) := by
  intro h
  exact h "video" [(0, 0, 0), (0, 0, 0)] (by decide)
    (by norm_num [List.chain'_cons, List.chain'_singleton])
    0 1 (by decide) (by decide) (by decide) rfl

/-- C5 (amended): for decoder-producible timestamp lists whose tuples
are pairwise distinct, the index-to-filename mapping is 1:1 — distinct
extraction indices are renamed to distinct target filenames. -/
theorem claim_C5 (base : String) (tempos : List (ℤ × ℤ × ℤ))
    (hval : ∀ tr ∈ tempos, tuplaValida tr) (hnodup : tempos.Nodup)
    (i j : Nat) (hi : i < tempos.length) (hj : j < tempos.length)
    (hij : i ≠ j) :
    destName base (tempos.get ⟨i, hi⟩) ≠ destName base (tempos.get ⟨j, hj⟩) := by
  intro heq
  have heq2 : tempos.get ⟨i, hi⟩ = tempos.get ⟨j, hj⟩ :=
    destName_inj (hval _ (List.get_mem _ _ _)) (hval _ (List.get_mem _ _ _)) heq
  have hfin := List.nodup_iff_injective_get.mp hnodup heq2
  exact hij (congrArg Fin.val hfin)

/-- C5 witness: two distinct valid timestamps go to distinct names. -/
theorem claim_C5_witness :
    destName "video" (([((0:ℤ), (0:ℤ), (0:ℤ)), (0, 0, 1)]
        : List (ℤ × ℤ × ℤ)).get ⟨0, by decide⟩)
      ≠ destName "video" (([((0:ℤ), (0:ℤ), (0:ℤ)), (0, 0, 1)]
        : List (ℤ × ℤ × ℤ)).get ⟨1, by decide⟩) :=
  claim_C5 "video" [(0, 0, 0), (0, 0, 1)] (by decide) (by decide)
    0 1 (by decide) (by decide) (by decide)

/-- C9: if the expected sequential file for one index is absent, that
index's timestamp is silently dropped (the run's result does not depend
on it at all), while every other index whose expected file is present
still gets its timestamp-named file; the whole run is a total function
(no error aborts the batch). -/
theorem claim_C9 (base : String) (fs : Finset String)
    (t₁ t₂ : List (ℤ × ℤ × ℤ)) (ti ti' : ℤ × ℤ × ℤ)
    (habs : origName (t₁.length + 1) ∉ fs) :
    renomear_frames (t₁ ++ ti :: t₂) base fs
      = renomear_frames (t₁ ++ ti' :: t₂) base fs
    ∧ ∀ (j : Nat) (hj : j < (t₁ ++ ti :: t₂).length), j ≠ t₁.length →
        origName (j + 1) ∈ fs →
        destName base ((t₁ ++ ti :: t₂).get ⟨j, hj⟩)
          ∈ renomear_frames (t₁ ++ ti :: t₂) base fs := by
  constructor
  · unfold renomear_frames
    rw [renomearAux_append, renomearAux_append]
    simp only [Nat.zero_add]
    have habs' : origName (t₁.length + 1) ∉ renomearAux base t₁ 0 fs :=
      orig_not_mem_renomearAux t₁ 0 fs habs
    show renomearAux base t₂ (t₁.length + 1)
        (if origName (t₁.length + 1) ∈ renomearAux base t₁ 0 fs then
          insert (destName base ti)
            ((renomearAux base t₁ 0 fs).erase (origName (t₁.length + 1)))
        else renomearAux base t₁ 0 fs)
      = renomearAux base t₂ (t₁.length + 1)
        (if origName (t₁.length + 1) ∈ renomearAux base t₁ 0 fs then
          insert (destName base ti')
            ((renomearAux base t₁ 0 fs).erase (origName (t₁.length + 1)))
        else renomearAux base t₁ 0 fs)
    rw [if_neg habs', if_neg habs']
  · intro j hj _ hmem
    unfold renomear_frames
    have hmem' : origName (0 + j + 1) ∈ fs := by rwa [Nat.zero_add]
    exact renamed_mem _ 0 j hj fs hmem'

/-- C9 witness: with the second expected frame file absent, the result
ignores the second timestamp and the first frame is still renamed. -/
theorem claim_C9_witness :
    renomear_frames [((0:ℤ), (0:ℤ), (0:ℤ)), (0, 0, 1)] "v" {origName 1}
      = renomear_frames [((0:ℤ), (0:ℤ), (0:ℤ)), (0, 0, 2)] "v" {origName 1}
    ∧ destName "v" (0, 0, 0)
        ∈ renomear_frames [((0:ℤ), (0:ℤ), (0:ℤ)), (0, 0, 1)] "v" {origName 1} := by
  have h := claim_C9 "v" {origName 1} [(0, 0, 0)] [] (0, 0, 1) (0, 0, 2)
    (by decide)
  exact ⟨h.1, h.2 0 (by decide) (by decide) (by decide)⟩

/-- C1 counterexample: with detected language `"es"` (different from the
target language `"pt"`), the worker performs no translation and emits no
`-es`-suffixed source-language files — only the two target-language
files with untranslated text — refuting the claim for arbitrary
detected languages. -/
theorem claim_C1_counterexample :
    ("es" : String) ≠ "pt"
    ∧ (transcrever (fun s => s ++ "!") "video" "es"
        [(0, 1, "hi")]).usou_traducao = false
    ∧ (transcrever (fun s => s ++ "!") "video" "es"
        [(0, 1, "hi")]).arquivos.map Prod.fst
      = ["video.srt", "video-Fala.Cronometrada.txt"] :=
  ⟨by decide, rfl, rfl⟩

/-- C1 (amended): the translation model is used, and the separate
source-language subtitle/transcript files (suffixed `-en`) are emitted,
exactly when the detected language is `"en"` — not for every detected
language differing from the target. -/
theorem claim_C1 (traduzir : String → String) (base_path detected : String)
    (segmentos : List (ℚ × ℚ × String)) :
    ((transcrever traduzir base_path detected segmentos).usou_traducao = true
      ↔ detected = "en")
    ∧ (transcrever traduzir base_path detected segmentos).arquivos.map Prod.fst
      = (if detected = "en" then
          [base_path ++ "-en.srt", base_path ++ "-en-Fala.Cronometrada.txt",
           base_path ++ ".srt", base_path ++ "-Fala.Cronometrada.txt"]
        else [base_path ++ ".srt", base_path ++ "-Fala.Cronometrada.txt"]) := by
  unfold transcrever
  by_cases h : detected = "en" <;> simp [h]

theorem formatar_timestamp_zero : formatar_timestamp 0 = "00:00:00,000" := by
  unfold formatar_timestamp
  norm_num [pyInt, pyFloorDiv, pyMod]
  decide

theorem formatar_timestamp_cinco_meios :
    formatar_timestamp (5/2) = "00:00:02,500" := by
  unfold formatar_timestamp
  norm_num [pyInt, pyFloorDiv, pyMod]
  decide

theorem formatar_timestamp_cinco : formatar_timestamp 5 = "00:00:05,000" := by
  unfold formatar_timestamp
  norm_num [pyInt, pyFloorDiv, pyMod]
  decide

/-- C3: with detected language equal to the target, the segment list
`[(0, 2.5, "hello"), (2.5, 5, "world")]` produces a subtitle file of
exactly two `{id}\n{start} --> {end}\n{text}\n\n` blocks with ids 1, 2
and the stated timestamps (and the matching time-coded transcript). -/
theorem claim_C3 :
    (transcrever (fun s => s) "video" "pt"
        [(0, 5/2, "hello"), (5/2, 5, "world")]).arquivos
      = [("video.srt",
          "1\n00:00:00,000 --> 00:00:02,500\nhello\n\n2\n00:00:02,500 --> 00:00:05,000\nworld\n\n"),
         ("video-Fala.Cronometrada.txt",
          "00:00:00,000: hello\n00:00:02,500: world\n")] := by
  unfold transcrever
  rw [if_neg (by decide : ¬ ("pt" : String) = "en")]
  simp only [List.map]
  rw [show py_strip "hello" = "hello" by decide,
    show py_strip "world" = "world" by decide]
  show [("video.srt",
      bloco_srt 1 0 (5/2) "hello" ++ (bloco_srt 2 (5/2) 5 "world" ++ "")),
    ("video-Fala.Cronometrada.txt",
      linha_fala 0 "hello" ++ (linha_fala (5/2) "world" ++ ""))] = _
  unfold bloco_srt linha_fala
  rw [formatar_timestamp_zero, formatar_timestamp_cinco_meios,
    formatar_timestamp_cinco]
  decide

/-- C7: when the cleaned-up text has no word of the minimum length 4,
the classifier rejects, whatever the language detector answers
(including a detector exception). -/
theorem claim_C7 (detectar : String → Except String String) (texto : String)
    (h : ∀ w ∈ py_split (texto_limpo_de texto), w.length < 4) :
    texto_legivel detectar texto = false := by
  unfold texto_legivel
  by_cases he : (texto_limpo_de texto).isEmpty
  · simp [he]
  · simp only [he, Bool.false_eq_true, if_false]
    cases hd : detectar ⟨texto_limpo_de texto⟩ with
    | error e => rfl
    | ok idioma =>
      by_cases hi : idioma = "pt"
      · have hnil : (py_split (texto_limpo_de texto)).filter
            (fun p => decide (4 ≤ p.length)) = [] :=
          List.filter_eq_nil_iff.mpr
            (fun w hw => by simpa using Nat.not_le.mpr (h w hw))
        simp [hi, hnil]
      · simp [hi]

/-- C7 witness: `"ab cd"` has only short words, so any detector result
(here a detector constantly answering the target language) rejects. -/
theorem claim_C7_witness :
    texto_legivel (fun _ => .ok "pt") "ab cd" = false :=
  claim_C7 (fun _ => .ok "pt") "ab cd" (by decide)

/-- C8 counterexample: `"pts_time:."` matches the capture pattern
(capture `"."`), yet `float(".")` raises `ValueError`, so the function
throws instead of producing one tuple for this matching line. -/
theorem claim_C8_counterexample :
    (buscar_pts ("pts_time:.".data)).isSome = true
    ∧ analisar_dados_log ["pts_time:."]
      = .error "could not convert string to float" :=
  ⟨rfl, rfl⟩

theorem analisarAux_ok :
    ∀ (dados : List String) (acc : List (ℤ × ℤ × ℤ)),
      (∀ linha ∈ dados, ((buscar_pts linha.data).all ehFloat) = true) →
      analisarAux dados acc
        = .ok (acc ++ dados.filterMap (fun linha =>
            (buscar_pts linha.data).map (fun cap => tupla_pts (valorFloat cap)))) := by
  intro dados
  induction dados with
  | nil => intro acc _; simp [analisarAux]
  | cons linha rest ih =>
    intro acc h
    cases hb : buscar_pts linha.data with
    | none =>
      have e : analisarAux (linha :: rest) acc = analisarAux rest acc := by
        show (match buscar_pts linha.data with
          | none => analisarAux rest acc
          | some cap =>
            match parseFloat? cap with
            | none => Except.error "could not convert string to float"
            | some t => analisarAux rest (acc ++ [tupla_pts t]))
          = analisarAux rest acc
        rw [hb]
      rw [e, ih acc (fun l hl => h l (List.mem_cons_of_mem _ hl))]
      simp [List.filterMap_cons, hb]
    | some cap =>
      have hf : ehFloat cap = true := by
        have := h linha (List.mem_cons_self _ _)
        rwa [hb, Option.all_some] at this
      have hp : parseFloat? cap = some (valorFloat cap) := by
        unfold parseFloat?; rw [if_pos hf]
      have e : analisarAux (linha :: rest) acc
          = analisarAux rest (acc ++ [tupla_pts (valorFloat cap)]) := by
        show (match buscar_pts linha.data with
          | none => analisarAux rest acc
          | some cap =>
            match parseFloat? cap with
            | none => Except.error "could not convert string to float"
            | some t => analisarAux rest (acc ++ [tupla_pts t]))
          = analisarAux rest (acc ++ [tupla_pts (valorFloat cap)])
        rw [hb]
        show (match parseFloat? cap with
          | none => Except.error "could not convert string to float"
          | some t => analisarAux rest (acc ++ [tupla_pts t]))
          = analisarAux rest (acc ++ [tupla_pts (valorFloat cap)])
        rw [hp]
      rw [e, ih _ (fun l hl => h l (List.mem_cons_of_mem _ hl))]
      simp [List.filterMap_cons, hb]

/-- C8 (amended): whenever every matching line's capture is a valid
float literal, `analisar_dados_log` returns normally with exactly one
tuple per matching line, in input order, and non-matching lines
contribute nothing.  (Without that proviso the function can throw on a
matching line — see the counterexample.) -/
theorem claim_C8 (dados_log : List String)
    (h : ∀ linha ∈ dados_log, ((buscar_pts linha.data).all ehFloat) = true) :
    analisar_dados_log dados_log
      = .ok (dados_log.filterMap (fun linha =>
          (buscar_pts linha.data).map (fun cap => tupla_pts (valorFloat cap)))) := by
  have := analisarAux_ok dados_log [] h
  simpa [analisar_dados_log] using this

/-- C8 witness: a noise line and a well-formed line. -/
theorem claim_C8_witness :
    analisar_dados_log ["frame=   12", "x pts_time:2.5 y"]
      = .ok (["frame=   12", "x pts_time:2.5 y"].filterMap (fun linha =>
          (buscar_pts linha.data).map (fun cap => tupla_pts (valorFloat cap)))) :=
  claim_C8 ["frame=   12", "x pts_time:2.5 y"] (by decide)

/-- C4: a fatal-to-file failure in either sub-pipeline ends that worker
with exactly one error message on its own channel (never an exception
past the worker boundary); the sibling sub-pipeline's messages and
every other file's messages are exactly what they would be anyway. -/
theorem claim_C4 (ts : List Trabalho) (i : Nat) (t : Trabalho)
    (hi : ts[i]? = some t) :
    (process_files ts)[i]? = some (processar_arquivo t)
    ∧ (∀ e, t.frames = .error e →
        (processar_arquivo t).1
          = [Mensagem.texto ("Erro ao processar frames: " ++ e)]
        ∧ (processar_arquivo t).2 = processar_transcricao t.transcricao)
    ∧ (∀ e, t.transcricao = .error e →
        (processar_arquivo t).2
          = [Mensagem.texto ("Erro na transcrição: " ++ e)]
        ∧ (processar_arquivo t).1 = processar_frames t.frames)
    ∧ ∀ (j : Nat) (t' : Trabalho), j ≠ i → ts[j]? = some t' →
        (process_files ts)[j]? = some (processar_arquivo t') := by
  refine ⟨?_, ?_, ?_, ?_⟩
  · simp [process_files, List.getElem?_map, hi]
  · intro e he
    exact ⟨by simp [processar_arquivo, processar_frames, he], rfl⟩
  · intro e he
    exact ⟨by simp [processar_arquivo, processar_transcricao, he], rfl⟩
  · intro j t' _ hj
    simp [process_files, List.getElem?_map, hj]

/-- C4 witness: one file whose decoder timed out; the frame channel
carries the error message and the transcription outcome is untouched. -/
theorem claim_C4_witness :
    (process_files [⟨Except.error "timeout", Except.ok []⟩])[0]?
      = some (processar_arquivo ⟨Except.error "timeout", Except.ok []⟩)
    ∧ (processar_arquivo ⟨Except.error "timeout", Except.ok []⟩).1
      = [Mensagem.texto ("Erro ao processar frames: " ++ "timeout")] := by
  have h := claim_C4 [⟨Except.error "timeout", Except.ok []⟩] 0
    ⟨Except.error "timeout", Except.ok []⟩ rfl
  exact ⟨h.1, (h.2.1 "timeout" rfl).1⟩

end PicaVideo
